import Mathlib

/-!
Shallow embedding of the sequence-generation engine (`src/lstm_model.py`) and the
training orchestration loop (`src/experiment.py`) of the image-captioning repository.

Numeric tensor kernels that the claims do not inspect — the ResNet feature extractor,
the LSTM cell, the linear output head, and the real-valued log-sum-exp inside
`log_softmax` — are abstracted as parameters of the model structure (type parameters
`ι` for images, `σ` for one example's recurrent hidden/cell state, `ε` for one
decoder-input embedding vector).  The LSTM of `nn.LSTM` processes the batch dimension
pointwise, so the batched state of shape `(layers, B, hidden)` is modelled as a list
of `B` per-example states.  All data flow and control flow of the source (caption
buffers, completion flags, loop bounds, branch structure, stripping) is translated
exactly.  Logits are rational vectors, which keeps every definition executable.
-/

/-- The `generation` block of the configuration (`config_data['generation']`,
read at the top of `LSTMModel.generate`): `max_length`, `deterministic`,
`temperature`. -/
structure GenConfig where
  max_length : Nat
  deterministic : Bool
  temperature : ℚ

/-- Abstract per-example view of `LSTMModel` (src/lstm_model.py).

* `vocab_size` — out-dimension of the `hidden2output` linear layer (`len(vocab)`);
* `idx2word` — `self.vocab.idx2word[i]`;
* `vocabIdx` — `self.vocab(word)` (word → index lookup of the Vocabulary);
* `zeroState` — one example's slice of the zero hidden/cell tensors
  (`torch.zeros(num_layers, B, hidden_size)` twice, lines 103-104);
* `features` — `self.resnetfc(self.resnet(img))`, the image embedding of one image;
* `word_embedder` — the embedding row of a token index (`self.word_embedder` applied
  to an integer index tensor, which is its legal use);
* `step0Input` — the value the source feeds to the decoder at iteration 0 of
  `generate`.  In the source this is `self.word_embedder(features)` applied to the
  *float* feature tensor; `embeddingLookup` below models that lookup faithfully and
  shows it is an error, so for the loop model the step-0 input is kept abstract and
  every loop theorem holds for all of its values;
* `decoderStep` — one step of `self.decoder` on one example: new state from old
  state and input embedding;
* `hidden2output` — the logits `self.hidden2output(hidden_output)` of one example
  after a step (the step's output is the new top-layer hidden state, a function of
  the new state);
* `lse` — abstract log-sum-exp: `log_softmax(v)_i = v_i - lse v`.  The real-valued
  `logsumexp` is irrational, so it is a parameter; every theorem below holds for all
  values of it;
* `sample` — stochastic-mode oracle for `Categorical(softmax).sample()`: given the
  step number, the example index and the temperature-scaled logits, the sampled
  index. -/
structure LSTMModel (ι σ ε : Type) where
  vocab_size : Nat
  idx2word : Nat → String
  vocabIdx : String → Nat
  zeroState : σ
  features : ι → ε
  word_embedder : Nat → ε
  step0Input : ι → ε
  decoderStep : σ → ε → σ
  hidden2output : σ → List ℚ
  lse : List ℚ → ℚ
  sample : Nat → Nat → List ℚ → Nat

/-- Index of the greatest element of a rational vector, ties broken by the lowest
index: models `tensor.max(dim=1)` returning the index of the first maximal value. -/
def argmaxIdx : List ℚ → Nat
  | [] => 0
  | [_] => 0
  | x :: y :: ys =>
    let j := argmaxIdx (y :: ys)
    if x < (y :: ys).getD j 0 then j + 1 else 0

/-- `torchf.log_softmax(v, dim=1)` on one row: subtracts the (abstracted)
log-sum-exp of the row from every entry. -/
def logSoftmax (lse : List ℚ → ℚ) (v : List ℚ) : List ℚ :=
  v.map (fun x => x - lse v)

/-- The cleanup predicate of the return statement of `generate` (line 149):
`word != "<start>" and word != "<end>" and word != "<pad>"`. -/
def notSpecial (w : String) : Bool :=
  !(w == "<start>") && !(w == "<end>") && !(w == "<pad>")

/-- One caption buffer as initialised by `generate` (lines 110-113):
`["<pad>"] * (max_len + 1)` with position 0 set to `"<start>"`. -/
def initCaption (max_len : Nat) : List String :=
  (List.replicate (max_len + 1) "<pad>").set 0 "<start>"

/-- The mutable state of the while-loop of `LSTMModel.generate`:
`captions`, `keep_generating`, the per-example recurrent states, `iter` and
`num_complete`. -/
structure GenState (σ : Type) where
  captions : List (List String)
  keep_generating : List Bool
  states : List σ
  iter : Nat
  num_complete : Nat

/-- The loop state just before the first iteration of `generate`
(lines 103-116). -/
def initState {ι σ ε : Type} (m : LSTMModel ι σ ε) (batch_size max_len : Nat) :
    GenState σ :=
  { captions := List.replicate batch_size (initCaption max_len)
    keep_generating := List.replicate batch_size true
    states := List.replicate batch_size m.zeroState
    iter := 0
    num_complete := 0 }

/-- The recording pass `for i in range(batch_size)` of `generate`
(lines 139-146): for each example whose `keep_generating` flag is set, decode the
selected index through `idx2word`, write the word at position `t` of that example's
caption, and on `"<end>"` clear the flag.  Returns the updated captions, the updated
flags, and the number of newly completed examples (the increment of `num_complete`).
The three lists always have equal length (the batch size) at every call site. -/
def recordTokens (idx2word : Nat → String) (t : Nat) :
    List (List String) → List Bool → List Nat →
      List (List String) × List Bool × Nat
  | c :: cs, k :: ks, n :: ns =>
    let r := recordTokens idx2word t cs ks ns
    if k then
      let w := idx2word n
      if w = "<end>" then (c.set t w :: r.1, false :: r.2.1, r.2.2 + 1)
      else (c.set t w :: r.1, true :: r.2.1, r.2.2)
    else (c :: r.1, k :: r.2.1, r.2.2)
  | cs, ks, _ => (cs, ks, 0)

/-- The decoder input `embedded` of one loop iteration (lines 119-126): at
iteration 0 the step-0 input computed from the images; at later iterations the
word-embedding of `self.vocab(ls[iter - 1])` for every caption buffer, completed
examples included. -/
def genInputs {ι σ ε : Type} (m : LSTMModel ι σ ε) (images : List ι)
    (st : GenState σ) : List ε :=
  if st.iter = 0 then images.map m.step0Input
  else st.captions.map (fun ls => m.word_embedder (m.vocabIdx (ls.getD (st.iter - 1) "<pad>")))

/-- The per-example index selection of one loop iteration (lines 131-138):
deterministic — `log_softmax(output, dim=1).max(dim=1)`; stochastic — the sampling
oracle applied to the temperature-scaled logits (`softmax(output / temperature)`
followed by `Categorical(...).sample()`). -/
def genIndices {σ : Type} {ι ε : Type} (m : LSTMModel ι σ ε) (cfg : GenConfig)
    (st : GenState σ) (output : List (List ℚ)) : List Nat :=
  if cfg.deterministic then output.map (fun v => argmaxIdx (logSoftmax m.lse v))
  else output.enum.map (fun p => m.sample st.iter p.1 (p.2.map (fun q => q / cfg.temperature)))

/-- One iteration of the while-loop of `generate` (lines 117-147): build the decoder
input, advance every example's recurrent state (`self.decoder(embedded,
(hidden_states, cell_states))`), compute the logits (`self.hidden2output`), select
one index per example, then record the tokens and advance `iter`. -/
def genStep {ι σ ε : Type} (m : LSTMModel ι σ ε) (cfg : GenConfig) (images : List ι)
    (st : GenState σ) : GenState σ :=
  let embedded : List ε := genInputs m images st
  let newStates := (st.states.zip embedded).map (fun p => m.decoderStep p.1 p.2)
  let output := newStates.map m.hidden2output
  let indices : List Nat := genIndices m cfg st output
  let r := recordTokens m.idx2word st.iter st.captions st.keep_generating indices
  { captions := r.1
    keep_generating := r.2.1
    states := newStates
    iter := st.iter + 1
    num_complete := st.num_complete + r.2.2 }

/-- The while-loop `while iter < max_len + 1 and num_complete < batch_size` of
`generate`, written with a fuel argument.  Each iteration increments `iter` by one,
so fuel `max_len + 1` is enough to drive the guard to false (`generate_terminates`
below proves that extra fuel does not change the result). -/
def genLoop {ι σ ε : Type} (m : LSTMModel ι σ ε) (cfg : GenConfig) (images : List ι) :
    Nat → GenState σ → GenState σ
  | 0, st => st
  | fuel + 1, st =>
    if st.iter < cfg.max_length + 1 ∧ st.num_complete < images.length then
      genLoop m cfg images fuel (genStep m cfg images st)
    else st

/-- The loop state of `generate` after the while-loop has finished. -/
def finalState {ι σ ε : Type} (m : LSTMModel ι σ ε) (images : List ι)
    (cfg : GenConfig) : GenState σ :=
  genLoop m cfg images (cfg.max_length + 1) (initState m images.length cfg.max_length)

/-- `LSTMModel.generate` (lines 80-149): run the while-loop, then strip all
occurrences of the three flag words from every caption buffer (line 149). -/
def generate {ι σ ε : Type} (m : LSTMModel ι σ ε) (images : List ι)
    (cfg : GenConfig) : List (List String) :=
  (finalState m images cfg).captions.map (List.filter notSpecial)

/-! ### The embedding-layer lookup at step 0 of `generate`

`nn.Embedding.forward` is `F.embedding(input, weight)`: the input must be an integer
index tensor, whose entries select rows of the weight matrix; a float tensor is a
type error.  At iteration 0 `generate` computes
`features = self.resnetfc(self.resnet(images).squeeze_())` — a float tensor — and
then calls `self.word_embedder(features)` on it (lines 120-122), unlike `forward`,
which feeds `features` to the decoder directly (line 71). -/

/-- A PyTorch tensor as far as the embedding layer is concerned: a float tensor
(rows of rationals) or an integer index tensor. -/
inductive PyTensor where
  | floatT (rows : List (List ℚ)) : PyTensor
  | intT (rows : List (List Nat)) : PyTensor

/-- `F.embedding(input, weight)`: on an integer index tensor, replace every index by
the corresponding row of the weight matrix; on a float tensor, an error (`none`). -/
def embeddingLookup (weight : List (List ℚ)) : PyTensor → Option (List (List (List ℚ)))
  | PyTensor.intT rows => some (rows.map (fun r => r.map (fun i => weight.getD i [])))
  | PyTensor.floatT _ => none

/-- The step-0 decoder input of `generate` as the source computes it
(lines 120-122): the word-embedding lookup applied to the float image-feature
rows. -/
def generateStep0Embedded (weight : List (List ℚ)) (features : List (List ℚ)) :
    Option (List (List (List ℚ))) :=
  embeddingLookup weight (PyTensor.floatT features)

/-! ### Teacher-forced scoring: `LSTMModel.forward` (lines 47-78) -/

/-- Successive per-example recurrent states of `self.decoder` started from a given
state over a list of input embeddings (the LSTM scan; `nn.LSTM` defaults the initial
hidden and cell states to zeros). -/
def lstmStates {ι σ ε : Type} (m : LSTMModel ι σ ε) : σ → List ε → List σ
  | _, [] => []
  | s, e :: es =>
    let s2 := m.decoderStep s e
    s2 :: lstmStates m s2 es

/-- The decoder input sequence built by `forward` for one example (lines 68-71):
the image embedding as a synthetic first step, followed by the word-embeddings of
`captions[:, :-1]` (the target with its final token dropped). -/
def teacherInputs {ι σ ε : Type} (m : LSTMModel ι σ ε) (img : ι) (cap : List Nat) :
    List ε :=
  m.features img :: cap.dropLast.map m.word_embedder

/-- The per-position logits of `forward` for one example, before the final permute:
row `t` is the vocabulary-logits vector of scored position `t`. -/
def forwardExample {ι σ ε : Type} (m : LSTMModel ι σ ε) (img : ι) (cap : List Nat) :
    List (List ℚ) :=
  (lstmStates m m.zeroState (teacherInputs m img cap)).map m.hidden2output

/-- `output.permute(0, 2, 1)` on one example: turn the `(positions, vocab)` matrix
into the `(vocab, positions)` matrix, `vocab_size` being the out-dimension of the
`hidden2output` layer. -/
def permuteVL (vocab_size : Nat) (rows : List (List ℚ)) : List (List ℚ) :=
  (List.range vocab_size).map (fun v => rows.map (fun r => r.getD v 0))

/-- `LSTMModel.forward` (lines 47-78): per (image, caption) pair, the permuted
`(vocab, positions)` logits matrix.  The result is what `experiment.py` feeds to
`nn.CrossEntropyLoss` together with the *un-shifted* `captions` tensor
(`self.__criterion(outputs, captions)`, line 156). -/
def forward {ι σ ε : Type} (m : LSTMModel ι σ ε) (images : List ι)
    (captions : List (List Nat)) : List (List (List ℚ)) :=
  (images.zip captions).map (fun p => permuteVL m.vocab_size (forwardExample m p.1 p.2))

/-! ### The training orchestrator: `Experiment` (src/experiment.py)

The dataset loaders, the model forward/backward passes and the optimizer are
abstracted as oracles; the statistics bookkeeping, the epoch loop and the
checkpoint/resume control flow are translated exactly.  The helpers
`read_file_in_dir` / `write_to_file_in_dir` live in `utils/file_utils`, which is not
under `src/`; where they matter they are modelled from the spec (see the individual
doc comments). -/

/-- The statistics-related mutable state of an `Experiment`:
`self.__current_epoch`, `self.__training_losses`, `self.__val_losses`, and —
modelled from the spec: the persisted statistics are "two ordered numeric lists
(training loss, validation loss)", written by `write_to_file_in_dir` (in
`utils/file_utils`, not under `src/`) — the on-disk contents of
`training_losses.txt` and `val_losses.txt` (`none` while a file does not exist). -/
structure ExpState where
  current_epoch : Nat
  training_losses : List ℚ
  val_losses : List ℚ
  disk_train : Option (List ℚ)
  disk_val : Option (List ℚ)

/-- The state of a freshly constructed `Experiment` before any loading:
`current_epoch = 0`, empty histories (lines 40-42), nothing on disk. -/
def freshExp : ExpState :=
  { current_epoch := 0, training_losses := [], val_losses := [],
    disk_train := none, disk_val := none }

/-- `Experiment.__record_stats` (lines 250-256): append both losses to the
histories; if `self.__save`, write both full histories to their files
(`write_to_file_in_dir` — modelled from the spec: it replaces the file's contents
with the given list). -/
def recordStats (save : Bool) (train_loss val_loss : ℚ) (st : ExpState) : ExpState :=
  let st1 := { st with
    training_losses := st.training_losses ++ [train_loss]
    val_losses := st.val_losses ++ [val_loss] }
  if save then
    { st1 with disk_train := some st1.training_losses, disk_val := some st1.val_losses }
  else st1

/-- The test trigger of `Experiment.run` (line 107):
`if epoch % 10 == 0 and epoch != start_epoch`. -/
def testTrigger (epoch start_epoch : Nat) : Bool :=
  epoch % 10 == 0 && !(epoch == start_epoch)

/-- Modelled from the spec (refinement comparison only): the spec's wording of the
trigger — the periodic test pass runs "every K epochs, K configurable, skipped at
the starting epoch". -/
def specTestTrigger (K epoch start_epoch : Nat) : Bool :=
  epoch % K == 0 && !(epoch == start_epoch)

/-- One iteration of the epoch loop of `Experiment.run` (lines 105-117) restricted
to the observable effects the claims are about: record a test pass when the trigger
fires, set `self.__current_epoch = epoch`, run the training and validation epochs
(their scalar losses are given by the oracles `trainOf`/`valOf`), and record the
stats.  The fold accumulator carries the experiment state and the list of epochs on
which `self.test()` ran. -/
def epochStep (save : Bool) (trainOf valOf : Nat → ℚ) (start_epoch : Nat)
    (acc : ExpState × List Nat) (epoch : Nat) : ExpState × List Nat :=
  let tested := if testTrigger epoch start_epoch then acc.2 ++ [epoch] else acc.2
  let st := { acc.1 with current_epoch := epoch }
  (recordStats save (trainOf epoch) (valOf epoch) st, tested)

/-- `Experiment.run` (lines 102-118): `start_epoch = self.__current_epoch`, then
`for epoch in range(start_epoch, self.__epochs)` run `epochStep`.  Returns the final
state and the list of epochs on which the periodic test pass ran. -/
def runLoop (save : Bool) (trainOf valOf : Nat → ℚ) (epochs : Nat)
    (st0 : ExpState) : ExpState × List Nat :=
  (List.range' st0.current_epoch (epochs - st0.current_epoch)).foldl
    (epochStep save trainOf valOf st0.current_epoch) (st0, [])

/-- `Experiment.__train` (lines 131-166) with the per-batch pipeline abstracted:
`lossOf b` is the scalar `loss.item()` the criterion produces for batch `b`.  The
fold mirrors the loop body — accumulate `training_loss += loss.item()` and run
`self.__optimizer.step()` — and the second component records, in order, every batch
for which the optimizer step executed.  After the loop the aggregate is divided by
`len(self.__train_loader)`. -/
def trainEpoch {β : Type} (lossOf : β → ℚ) (loader : List β) : ℚ × List β :=
  let r := loader.foldl (fun acc b => (acc.1 + lossOf b, acc.2 ++ [b])) ((0 : ℚ), ([] : List β))
  (r.1 / (loader.length : ℚ), r.2)

/-- A training batch for the `trainEpoch` model; only its size is relevant to the
claims. -/
structure Batch where
  size : Nat
deriving DecidableEq

/-! ### Checkpoint loading: `Experiment.__load_experiment` (lines 66-79) -/

/-- The parts of the filesystem `__load_experiment` touches, for model weights `μ`
and optimizer state `ω`: whether `ROOT_STATS_DIR` (which is also
`self.__experiment_dir`, line 31) exists, the contents of `training_losses.txt` and
`val_losses.txt` (`none` when absent — modelled from the spec together with the
`src` evidence that `read_file_in_dir` yields `None` for a missing file, cf. the
`config_data is None` check in `__init__`), and the checkpoint file
`latest_model.pt` (`none` when absent). -/
structure ExpFS (μ ω : Type) where
  statsDirExists : Bool
  training_file : Option (List ℚ)
  val_file : Option (List ℚ)
  checkpoint_file : Option (μ × ω)

/-- The fields of `Experiment` that `__load_experiment` mutates.  `val_losses` is
an `Option` because the source assigns the raw result of `read_file_in_dir` to it
without inspecting it. -/
structure ExpCore (μ ω : Type) where
  current_epoch : Nat
  training_losses : List ℚ
  val_losses : Option (List ℚ)
  model : μ
  optim : ω

/-- The three ways `__load_experiment` can raise: `len(None)` when
`training_losses.txt` is missing (a `TypeError`), `torch.load` on a missing or
unreadable `latest_model.pt` (an `IOError`), and `os.makedirs` without
`exist_ok` on an existing directory (a `FileExistsError`). -/
inductive LoadErr where
  | lenOfNone : LoadErr
  | missingCheckpoint : LoadErr
  | dirAlreadyExists : LoadErr
deriving DecidableEq

/-- The state of a freshly constructed `Experiment` (the fields `__load_experiment`
can overwrite), given the freshly built model and optimizer. -/
def freshCore {μ ω : Type} (model : μ) (optim : ω) : ExpCore μ ω :=
  { current_epoch := 0, training_losses := [], val_losses := some [],
    model := model, optim := optim }

/-- `Experiment.__load_experiment` (lines 66-79), line by line:
`os.makedirs(ROOT_STATS_DIR, exist_ok=True)`; then
`if os.path.exists(self.__experiment_dir) and self.__load`: read both loss files,
set `current_epoch = len(self.__training_losses)` (raising if that read returned
`None`), then `torch.load` the checkpoint (raising if absent) and install its
`model`/`optimizer` entries; `else: os.makedirs(self.__experiment_dir)` (without
`exist_ok`, raising if the directory exists — which the first line has just
ensured). -/
def loadExperiment {μ ω : Type} (load : Bool) (fs : ExpFS μ ω) (st : ExpCore μ ω) :
    Except LoadErr (ExpCore μ ω × ExpFS μ ω) :=
  let fs1 : ExpFS μ ω := { fs with statsDirExists := true }
  if fs1.statsDirExists && load then
    match fs1.training_file with
    | none => Except.error LoadErr.lenOfNone
    | some tls =>
      match fs1.checkpoint_file with
      | none => Except.error LoadErr.missingCheckpoint
      | some ck =>
        Except.ok
          ({ st with
              training_losses := tls
              val_losses := fs1.val_file
              current_epoch := tls.length
              model := ck.1
              optim := ck.2 }, fs1)
  else
    if fs1.statsDirExists then Except.error LoadErr.dirAlreadyExists
    else Except.ok (st, { fs1 with statsDirExists := true })

/-- The construction-time resume step of `Experiment.__init__` (lines 40-62): the
statistics fields start fresh, and `__load_experiment` runs only when
`self.__load` is set. -/
def experimentInit {μ ω : Type} (load : Bool) (model : μ) (optim : ω)
    (fs : ExpFS μ ω) : Except LoadErr (ExpCore μ ω × ExpFS μ ω) :=
  if load then loadExperiment load fs (freshCore model optim)
  else Except.ok (freshCore model optim, fs)

/-! ### Concrete instances used by witnesses and counterexamples -/

/-- A one-word model over trivial carrier types: every logits vector is `[1]` and
index 0 decodes to the ordinary word `"a"`. -/
def cmA : LSTMModel Unit Unit Unit :=
  { vocab_size := 1, idx2word := fun _ => "a", vocabIdx := fun _ => 0,
    zeroState := (), features := fun _ => (), word_embedder := fun _ => (),
    step0Input := fun _ => (), decoderStep := fun _ _ => (),
    hidden2output := fun _ => [1], lse := fun _ => 0, sample := fun _ _ _ => 0 }

/-- A model that always selects the end-of-sequence word. -/
def cmEnd : LSTMModel Unit Unit Unit :=
  { cmA with idx2word := fun _ => "<end>" }

/-- A deterministic generation config with `max_length = 1`. -/
def cfgLen1 : GenConfig :=
  { max_length := 1, deterministic := true, temperature := 1 }

/-- A size-0 batch (testing the empty-batch claim about `__train`). -/
def zeroBatch : Batch := { size := 0 }

/-- A filesystem with no stats directory, no stats files and no checkpoint. -/
def fsEmpty : ExpFS Int Int :=
  { statsDirExists := false, training_file := none, val_file := none,
    checkpoint_file := none }

/-- A filesystem holding a prior run: the stats directory, both loss files and the
checkpoint. -/
def fsLoaded : ExpFS Int Int :=
  { statsDirExists := true, training_file := some [1, 2], val_file := some [3, 4],
    checkpoint_file := some (7, 8) }

/-! ### Invariants of the generation loop (used by the proofs below) -/

/-- A caption buffer of an example whose `keep_generating` flag is still set when
`iter = t`: it has its full allocated length, every position from `t` on still holds
its initial value (`"<start>"` at position 0, `"<pad>"` elsewhere), and no position
holds `"<end>"`. -/
def liveCap (max_len t : Nat) (cap : List String) : Prop :=
  cap.length = max_len + 1 ∧
  (∀ u, t ≤ u → u < cap.length → cap.getD u "" = if u = 0 then "<start>" else "<pad>") ∧
  (∀ u, u < cap.length → cap.getD u "" ≠ "<end>")

/-- A caption buffer of a completed example when `iter = t`: it has its full
allocated length and holds `"<end>"` at exactly one position `s < t` (its completion
step), with no `"<end>"` before `s` and untouched `"<pad>"` everywhere after `s`. -/
def doneCap (max_len t : Nat) (cap : List String) : Prop :=
  cap.length = max_len + 1 ∧
  ∃ s, s < t ∧ s < cap.length ∧ cap.getD s "" = "<end>" ∧
    (∀ u, u < s → cap.getD u "" ≠ "<end>") ∧
    (∀ u, s < u → u < cap.length → cap.getD u "" = "<pad>")

/-- The per-example loop invariant relating a caption buffer to its
`keep_generating` flag. -/
def capInv (max_len t : Nat) (cap : List String) (k : Bool) : Prop :=
  (k = true → liveCap max_len t cap) ∧ (k = false → doneCap max_len t cap)

/-- The loop invariant of `generate`: the three per-example lists have the batch
size as length and every caption buffer satisfies `capInv` against its flag. -/
def stInv {σ : Type} (max_len B : Nat) (st : GenState σ) : Prop :=
  st.captions.length = B ∧ st.keep_generating.length = B ∧ st.states.length = B ∧
  List.Forall₂ (capInv max_len st.iter) st.captions st.keep_generating

/-! ### List index helpers -/

theorem listGetD_eq_default {α : Type} : ∀ (l : List α) (n : Nat) (d : α),
    l.length ≤ n → l.getD n d = d
  | [], _, _, _ => rfl
  | _ :: l, n + 1, d, h => listGetD_eq_default l n d (by simpa using h)
  | _ :: _, 0, _, h => by simp at h

theorem listGetD_set_self {α : Type} : ∀ (l : List α) (t : Nat) (a d : α),
    t < l.length → (l.set t a).getD t d = a
  | _ :: _, 0, _, _, _ => rfl
  | _ :: l, t + 1, a, d, h => listGetD_set_self l t a d (by simpa using h)
  | [], _, _, _, h => by simp at h

theorem listGetD_set_ne {α : Type} : ∀ (l : List α) (t u : Nat) (a d : α),
    u ≠ t → (l.set t a).getD u d = l.getD u d
  | [], _, _, _, _, _ => rfl
  | _ :: _, 0, 0, _, _, h => absurd rfl h
  | _ :: _, 0, _ + 1, _, _, _ => rfl
  | _ :: _, _ + 1, 0, _, _, _ => rfl
  | _ :: l, t + 1, u + 1, a, d, h => listGetD_set_ne l t u a d (fun e => h (by omega))

theorem listGetD_map {α β : Type} (f : α → β) : ∀ (l : List α) (i : Nat) (d : β) (e : α),
    i < l.length → (l.map f).getD i d = f (l.getD i e)
  | _ :: _, 0, _, _, _ => rfl
  | _ :: l, i + 1, d, e, h => listGetD_map f l i d e (by simpa using h)
  | [], _, _, _, h => by simp at h

theorem listGetD_replicate {α : Type} (a d : α) : ∀ (n i : Nat),
    i < n → (List.replicate n a).getD i d = a
  | n + 1, 0, _ => rfl
  | n + 1, i + 1, h => listGetD_replicate a d n i (by omega)
  | 0, _, h => by omega

theorem listGetD_drop {α : Type} (d : α) : ∀ (l : List α) (k j : Nat),
    (l.drop k).getD j d = l.getD (k + j) d
  | _, 0, j => by simp
  | [], k + 1, _ => rfl
  | _ :: l, k + 1, j => by
    have h := listGetD_drop d l k j
    have e : k + 1 + j = (k + j) + 1 := by omega
    rw [e]
    exact h

theorem mem_getD_of_mem {α : Type} (d : α) : ∀ {l : List α} {x : α},
    x ∈ l → ∃ i, i < l.length ∧ l.getD i d = x := by
  intro l
  induction l with
  | nil => intro x hx; cases hx
  | cons a l ih =>
    intro x hx
    rcases List.mem_cons.mp hx with h | h
    · exact ⟨0, by simp, h.symm⟩
    · obtain ⟨i, hi, he⟩ := ih h
      exact ⟨i + 1, by simpa using hi, he⟩

theorem forall₂_getD {α β : Type} {R : α → β → Prop} (d₁ : α) (d₂ : β) :
    ∀ {l₁ : List α} {l₂ : List β}, List.Forall₂ R l₁ l₂ →
      ∀ i, i < l₁.length → R (l₁.getD i d₁) (l₂.getD i d₂) := by
  intro l₁ l₂ h
  induction h with
  | nil => intro i hi; simp at hi
  | cons hab hl ih =>
    intro i hi
    cases i with
    | zero => exact hab
    | succ i => exact ih i (by simpa using hi)

theorem forall₂_replicate {α β : Type} {R : α → β → Prop} {a : α} {b : β} (h : R a b) :
    ∀ n, List.Forall₂ R (List.replicate n a) (List.replicate n b)
  | 0 => List.Forall₂.nil
  | n + 1 => List.Forall₂.cons h (forall₂_replicate h n)

theorem filter_eq_nil_of_false {α : Type} (p : α → Bool) :
    ∀ (l : List α), (∀ x ∈ l, p x = false) → l.filter p = []
  | [], _ => rfl
  | a :: l, h => by
    have ha := h a (by simp)
    have ih := filter_eq_nil_of_false p l (fun x hx => h x (by simp [hx]))
    simp [List.filter_cons, ha, ih]

theorem initCaption_eq (n : Nat) : initCaption n = "<start>" :: List.replicate n "<pad>" := rfl

/-! ### Properties of `argmaxIdx` -/

theorem argmaxIdx_lt_length : ∀ (v : List ℚ), v ≠ [] → argmaxIdx v < v.length
  | [], h => absurd rfl h
  | [_], _ => by simp [argmaxIdx]
  | x :: y :: ys, _ => by
    have ih := argmaxIdx_lt_length (y :: ys) (by simp)
    by_cases h : x < (y :: ys).getD (argmaxIdx (y :: ys)) 0
    · simp only [argmaxIdx, h, if_true]
      simpa using ih
    · simp only [argmaxIdx, h, if_false]
      simp

theorem le_getD_argmaxIdx : ∀ (v : List ℚ) (i : Nat), i < v.length →
    v.getD i 0 ≤ v.getD (argmaxIdx v) 0
  | [], _, hi => by simp at hi
  | [x], i, hi => by
    have : i = 0 := by simpa using hi
    subst this
    simp [argmaxIdx]
  | x :: y :: ys, i, hi => by
    have ih := le_getD_argmaxIdx (y :: ys)
    by_cases h : x < (y :: ys).getD (argmaxIdx (y :: ys)) 0
    · simp only [argmaxIdx, h, if_true]
      cases i with
      | zero => exact le_of_lt h
      | succ i => exact ih i (by simpa using hi)
    · simp only [argmaxIdx, h, if_false]
      push_neg at h
      cases i with
      | zero => exact le_refl _
      | succ i => exact le_trans (ih i (by simpa using hi)) h

theorem lt_getD_argmaxIdx : ∀ (v : List ℚ) (i : Nat), i < argmaxIdx v →
    v.getD i 0 < v.getD (argmaxIdx v) 0
  | [], i, hi => by simp [argmaxIdx] at hi
  | [x], i, hi => by simp [argmaxIdx] at hi
  | x :: y :: ys, i, hi => by
    have ih := lt_getD_argmaxIdx (y :: ys)
    by_cases h : x < (y :: ys).getD (argmaxIdx (y :: ys)) 0
    · simp only [argmaxIdx, h, if_true] at hi ⊢
      cases i with
      | zero => exact h
      | succ i => exact ih i (by omega)
    · simp only [argmaxIdx, h, if_false] at hi ⊢
      omega

theorem argmaxIdx_map_sub (c : ℚ) : ∀ (v : List ℚ),
    argmaxIdx (v.map (fun x => x - c)) = argmaxIdx v
  | [] => rfl
  | [_] => rfl
  | x :: y :: ys => by
    have ih := argmaxIdx_map_sub c (y :: ys)
    have hlt := argmaxIdx_lt_length (y :: ys) (by simp)
    have hmap : (x :: y :: ys).map (fun z => z - c)
        = (x - c) :: (y :: ys).map (fun z => z - c) := rfl
    have hgd : ((y :: ys).map (fun z => z - c)).getD (argmaxIdx (y :: ys)) 0
        = (y :: ys).getD (argmaxIdx (y :: ys)) 0 - c :=
      listGetD_map (fun z => z - c) (y :: ys) _ 0 0 hlt
    rcases hm : (y :: ys).map (fun z => z - c) with _ | ⟨z, zs⟩
    · simp at hm
    · rw [hmap, hm]
      simp only [argmaxIdx]
      rw [← hm, ih, hgd]
      have hiff : (x - c < (y :: ys).getD (argmaxIdx (y :: ys)) 0 - c)
          ↔ (x < (y :: ys).getD (argmaxIdx (y :: ys)) 0) := sub_lt_sub_iff_right c
      by_cases h : x < (y :: ys).getD (argmaxIdx (y :: ys)) 0
      · rw [if_pos (hiff.mpr h), if_pos h]
      · rw [if_neg (fun hh => h (hiff.mp hh)), if_neg h]

theorem argmaxIdx_logSoftmax (lse : List ℚ → ℚ) (v : List ℚ) :
    argmaxIdx (logSoftmax lse v) = argmaxIdx v :=
  argmaxIdx_map_sub (lse v) v

/-! ### The recording pass preserves the loop invariant -/

theorem recordTokens_length (f : Nat → String) (t : Nat) :
    ∀ (cs : List (List String)) (ks : List Bool) (ns : List Nat),
      (recordTokens f t cs ks ns).1.length = cs.length ∧
      (recordTokens f t cs ks ns).2.1.length = ks.length
  | c :: cs, k :: ks, n :: ns => by
    have ih := recordTokens_length f t cs ks ns
    cases k with
    | false => simpa [recordTokens] using ⟨ih.1, ih.2⟩
    | true =>
      by_cases hw : f n = "<end>"
      · simpa [recordTokens, hw] using ⟨ih.1, ih.2⟩
      · simpa [recordTokens, hw] using ⟨ih.1, ih.2⟩
  | [], _, _ => by simp [recordTokens]
  | _ :: _, [], _ => by simp [recordTokens]
  | _ :: _, _ :: _, [] => by simp [recordTokens]

theorem doneCap_mono {max_len t t2 : Nat} {cap : List String} (h : t ≤ t2)
    (hd : doneCap max_len t cap) : doneCap max_len t2 cap := by
  obtain ⟨hl, s, hs1, hs2, hs3, hs4, hs5⟩ := hd
  exact ⟨hl, s, by omega, hs2, hs3, hs4, hs5⟩

theorem recordTokens_capInv (f : Nat → String) (max_len t : Nat) (ht : t ≤ max_len) :
    ∀ {cs : List (List String)} {ks : List Bool},
      List.Forall₂ (capInv max_len t) cs ks →
      ∀ (ns : List Nat), ks.length = ns.length →
        List.Forall₂ (capInv max_len (t + 1)) (recordTokens f t cs ks ns).1
          (recordTokens f t cs ks ns).2.1 := by
  intro cs ks hf
  induction hf with
  | nil =>
    intro ns _
    simp [recordTokens]
  | @cons c k cs ks hab hrest ih =>
    intro ns hlen
    cases ns with
    | nil => simp at hlen
    | cons n ns =>
      have ihr := ih ns (by simpa using hlen)
      cases k with
      | false =>
        have hdone := hab.2 rfl
        simp only [recordTokens]
        exact List.Forall₂.cons
          ⟨fun h => Bool.noConfusion h, fun _ => doneCap_mono (by omega) hdone⟩ ihr
      | true =>
        obtain ⟨hl, hu, hne⟩ := hab.1 rfl
        have htlen : t < c.length := by omega
        by_cases hw : f n = "<end>"
        · simp only [recordTokens, if_pos rfl, hw, if_pos (Eq.refl "<end>")]
          refine List.Forall₂.cons ⟨fun h => Bool.noConfusion h, fun _ => ?_⟩ ihr
          refine ⟨by simpa using hl, t, by omega, by simpa using htlen, ?_, ?_, ?_⟩
          · rw [listGetD_set_self c t _ _ htlen]
          · intro u hu2
            rw [listGetD_set_ne c t u _ _ (by omega)]
            exact hne u (by omega)
          · intro u hu1 hu2
            rw [listGetD_set_ne c t u _ _ (by omega)]
            have := hu u (by omega) (by simpa using hu2)
            rwa [if_neg (by omega)] at this
        · simp only [recordTokens, if_pos rfl, if_neg hw]
          refine List.Forall₂.cons ⟨fun _ => ?_, fun h => Bool.noConfusion h⟩ ihr
          refine ⟨by simpa using hl, ?_, ?_⟩
          · intro u hu1 hu2
            rw [listGetD_set_ne c t u _ _ (by omega)]
            exact hu u (by omega) (by simpa using hu2)
          · intro u hu2
            by_cases hut : u = t
            · subst hut
              rw [listGetD_set_self c u _ _ htlen]
              exact hw
            · rw [listGetD_set_ne c t u _ _ hut]
              exact hne u (by simpa using hu2)

/-! ### The loop invariant of `generate` -/

theorem genInputs_length {ι σ ε : Type} (m : LSTMModel ι σ ε) (images : List ι)
    (st : GenState σ) (B : Nat) (hB : images.length = B) (hc : st.captions.length = B) :
    (genInputs m images st).length = B := by
  unfold genInputs
  split
  · simpa using hB
  · simpa using hc

theorem genIndices_length {ι σ ε : Type} (m : LSTMModel ι σ ε) (cfg : GenConfig)
    (st : GenState σ) (output : List (List ℚ)) :
    (genIndices m cfg st output).length = output.length := by
  unfold genIndices
  split
  · simp
  · simp

theorem genStep_iter {ι σ ε : Type} (m : LSTMModel ι σ ε) (cfg : GenConfig)
    (images : List ι) (st : GenState σ) :
    (genStep m cfg images st).iter = st.iter + 1 := rfl

theorem genStep_stInv {ι σ ε : Type} (m : LSTMModel ι σ ε) (cfg : GenConfig)
    (images : List ι) (st : GenState σ)
    (h : stInv cfg.max_length images.length st)
    (hiter : st.iter < cfg.max_length + 1) :
    stInv cfg.max_length images.length (genStep m cfg images st) := by
  obtain ⟨hc, hk, hs, hf⟩ := h
  have hemb : (genInputs m images st).length = images.length :=
    genInputs_length m images st images.length rfl hc
  have hns : ((st.states.zip (genInputs m images st)).map
      (fun p => m.decoderStep p.1 p.2)).length = images.length := by
    simp [List.length_zip, hs, hemb]
  have hout : (((st.states.zip (genInputs m images st)).map
      (fun p => m.decoderStep p.1 p.2)).map m.hidden2output).length = images.length := by
    simpa using hns
  have hidx : (genIndices m cfg st (((st.states.zip (genInputs m images st)).map
      (fun p => m.decoderStep p.1 p.2)).map m.hidden2output)).length = images.length := by
    rw [genIndices_length]
    exact hout
  have hrec := recordTokens_length m.idx2word st.iter st.captions st.keep_generating
    (genIndices m cfg st (((st.states.zip (genInputs m images st)).map
      (fun p => m.decoderStep p.1 p.2)).map m.hidden2output))
  have hcap := recordTokens_capInv m.idx2word cfg.max_length st.iter (by omega) hf
    (genIndices m cfg st (((st.states.zip (genInputs m images st)).map
      (fun p => m.decoderStep p.1 p.2)).map m.hidden2output))
    (by rw [hidx, hk])
  exact ⟨hrec.1.trans hc, hrec.2.trans hk, hns, hcap⟩

theorem initState_stInv {ι σ ε : Type} (m : LSTMModel ι σ ε) (B max_len : Nat) :
    stInv max_len B (initState m B max_len) := by
  refine ⟨by simp [initState], by simp [initState], by simp [initState], ?_⟩
  have hlive : capInv max_len 0 (initCaption max_len) true := by
    refine ⟨fun _ => ⟨by simp [initCaption_eq], ?_, ?_⟩, fun h => Bool.noConfusion h⟩
    · intro u _ hu2
      rw [initCaption_eq] at hu2 ⊢
      cases u with
      | zero => rfl
      | succ u =>
        rw [if_neg (by omega)]
        exact listGetD_replicate _ _ _ _ (by simpa using hu2)
    · intro u hu2
      rw [initCaption_eq] at hu2 ⊢
      cases u with
      | zero =>
        show ("<start>" : String) ≠ "<end>"
        decide
      | succ u =>
        rw [show (("<start>" :: List.replicate max_len "<pad>").getD (u + 1) "")
            = (List.replicate max_len "<pad>").getD u "" from rfl]
        rw [listGetD_replicate _ _ _ _ (by simpa using hu2)]
        decide
  exact forall₂_replicate hlive B

theorem genLoop_stInv {ι σ ε : Type} (m : LSTMModel ι σ ε) (cfg : GenConfig)
    (images : List ι) : ∀ (fuel : Nat) (st : GenState σ),
    stInv cfg.max_length images.length st →
    stInv cfg.max_length images.length (genLoop m cfg images fuel st)
  | 0, st, h => h
  | fuel + 1, st, h => by
    unfold genLoop
    split
    · next hcond =>
      exact genLoop_stInv m cfg images fuel _ (genStep_stInv m cfg images st h hcond.1)
    · exact h

theorem finalState_stInv {ι σ ε : Type} (m : LSTMModel ι σ ε) (images : List ι)
    (cfg : GenConfig) : stInv cfg.max_length images.length (finalState m images cfg) :=
  genLoop_stInv m cfg images _ _ (initState_stInv m images.length cfg.max_length)

/-! ### Termination and fuel-irrelevance of the generation loop -/

theorem genLoop_stop {ι σ ε : Type} (m : LSTMModel ι σ ε) (cfg : GenConfig)
    (images : List ι) : ∀ (fuel : Nat) (st : GenState σ),
    cfg.max_length + 1 ≤ st.iter → genLoop m cfg images fuel st = st
  | 0, _, _ => rfl
  | fuel + 1, st, h => by
    unfold genLoop
    rw [if_neg (fun hc => absurd hc.1 (by omega))]

theorem genLoop_add {ι σ ε : Type} (m : LSTMModel ι σ ε) (cfg : GenConfig)
    (images : List ι) : ∀ (fuel k : Nat) (st : GenState σ),
    cfg.max_length + 1 ≤ st.iter + fuel →
    genLoop m cfg images (fuel + k) st = genLoop m cfg images fuel st
  | 0, k, st, h => by
    rw [Nat.zero_add]
    exact genLoop_stop m cfg images k st (by omega)
  | fuel + 1, k, st, h => by
    have he : fuel + 1 + k = (fuel + k) + 1 := by omega
    rw [he]
    show genLoop m cfg images ((fuel + k) + 1) st = genLoop m cfg images (fuel + 1) st
    unfold genLoop
    split
    · exact genLoop_add m cfg images fuel k (genStep m cfg images st)
        (by rw [genStep_iter]; omega)
    · rfl

/-! ### Deterministic generation does not consult the sampling oracle -/

theorem genStep_sample {ι σ ε : Type} (m : LSTMModel ι σ ε)
    (s : Nat → Nat → List ℚ → Nat) (cfg : GenConfig) (images : List ι)
    (st : GenState σ) (h : cfg.deterministic = true) :
    genStep { m with sample := s } cfg images st = genStep m cfg images st := by
  unfold genStep genIndices
  rw [h]
  rfl

theorem genLoop_sample {ι σ ε : Type} (m : LSTMModel ι σ ε)
    (s : Nat → Nat → List ℚ → Nat) (cfg : GenConfig) (images : List ι)
    (h : cfg.deterministic = true) : ∀ (fuel : Nat) (st : GenState σ),
    genLoop { m with sample := s } cfg images fuel st = genLoop m cfg images fuel st
  | 0, _ => rfl
  | fuel + 1, st => by
    unfold genLoop
    split
    · rw [genStep_sample m s cfg images st h]
      exact genLoop_sample m s cfg images h fuel _
    · rfl

theorem generate_sample {ι σ ε : Type} (m : LSTMModel ι σ ε)
    (s : Nat → Nat → List ℚ → Nat) (images : List ι) (cfg : GenConfig)
    (h : cfg.deterministic = true) :
    generate { m with sample := s } images cfg = generate m images cfg := by
  unfold generate finalState
  rw [genLoop_sample m s cfg images h]
  rfl

/-! ### Helpers for teacher-forced scoring -/

theorem lstmStates_length {ι σ ε : Type} (m : LSTMModel ι σ ε) :
    ∀ (s : σ) (es : List ε), (lstmStates m s es).length = es.length
  | _, [] => rfl
  | s, e :: es => by
    show (m.decoderStep s e :: lstmStates m (m.decoderStep s e) es).length = (e :: es).length
    simp [lstmStates_length m _ es]

theorem lstmStates_head_irrel {ι σ ε : Type} (m : LSTMModel ι σ ε) (h2 : σ → List ℚ) :
    ∀ (s : σ) (es : List ε),
      lstmStates { m with hidden2output := h2 } s es = lstmStates m s es
  | _, [] => rfl
  | s, e :: es => by
    show m.decoderStep s e :: lstmStates { m with hidden2output := h2 } (m.decoderStep s e) es
        = m.decoderStep s e :: lstmStates m (m.decoderStep s e) es
    rw [lstmStates_head_irrel m h2 _ es]

theorem rangeGetD {n i : Nat} (h : i < n) : (List.range n).getD i 0 = i := by
  rw [List.getD_eq_getElem?_getD, List.getElem?_eq_getElem (by simpa using h)]
  simp

/-! ### Helpers for the orchestration loop -/

theorem recordStats_fields (save : Bool) (a b : ℚ) (st : ExpState) :
    (recordStats save a b st).training_losses = st.training_losses ++ [a] ∧
    (recordStats save a b st).val_losses = st.val_losses ++ [b] ∧
    (recordStats save a b st).current_epoch = st.current_epoch ∧
    (save = true →
      (recordStats save a b st).disk_train = some (st.training_losses ++ [a]) ∧
      (recordStats save a b st).disk_val = some (st.val_losses ++ [b])) := by
  unfold recordStats
  cases save with
  | false => simp
  | true => simp

theorem runFold_train_len (save : Bool) (trainOf valOf : Nat → ℚ) (start_epoch : Nat) :
    ∀ (n s : Nat) (p : ExpState × List Nat),
      ((List.range' s n).foldl (epochStep save trainOf valOf start_epoch) p).1.training_losses.length
        = p.1.training_losses.length + n
  | 0, _, _ => rfl
  | n + 1, s, p => by
    rw [show List.range' s (n + 1) = s :: List.range' (s + 1) n from rfl, List.foldl_cons]
    rw [runFold_train_len save trainOf valOf start_epoch n (s + 1) _]
    rw [show (epochStep save trainOf valOf start_epoch p s).1
        = recordStats save (trainOf s) (valOf s) { p.1 with current_epoch := s } from rfl]
    rw [(recordStats_fields save (trainOf s) (valOf s) _).1]
    simp
    omega

theorem runFold_val_len (save : Bool) (trainOf valOf : Nat → ℚ) (start_epoch : Nat) :
    ∀ (n s : Nat) (p : ExpState × List Nat),
      ((List.range' s n).foldl (epochStep save trainOf valOf start_epoch) p).1.val_losses.length
        = p.1.val_losses.length + n
  | 0, _, _ => rfl
  | n + 1, s, p => by
    rw [show List.range' s (n + 1) = s :: List.range' (s + 1) n from rfl, List.foldl_cons]
    rw [runFold_val_len save trainOf valOf start_epoch n (s + 1) _]
    rw [show (epochStep save trainOf valOf start_epoch p s).1
        = recordStats save (trainOf s) (valOf s) { p.1 with current_epoch := s } from rfl]
    rw [(recordStats_fields save (trainOf s) (valOf s) _).2.1]
    simp
    omega

theorem runFold_tested (save : Bool) (trainOf valOf : Nat → ℚ) (start_epoch : Nat) :
    ∀ (n s : Nat) (p : ExpState × List Nat),
      ((List.range' s n).foldl (epochStep save trainOf valOf start_epoch) p).2
        = p.2 ++ (List.range' s n).filter (fun e => testTrigger e start_epoch)
  | 0, _, _ => by simp
  | n + 1, s, p => by
    rw [show List.range' s (n + 1) = s :: List.range' (s + 1) n from rfl, List.foldl_cons]
    rw [runFold_tested save trainOf valOf start_epoch n (s + 1) _]
    rw [show (epochStep save trainOf valOf start_epoch p s).2
        = (if testTrigger s start_epoch then p.2 ++ [s] else p.2) from rfl]
    rw [List.filter_cons]
    by_cases htr : testTrigger s start_epoch = true
    · rw [if_pos htr, if_pos htr]
      simp
    · rw [if_neg (by simpa using htr), if_neg (by simpa using htr)]

theorem runFold_epoch (save : Bool) (trainOf valOf : Nat → ℚ) (start_epoch : Nat) :
    ∀ (n s : Nat) (p : ExpState × List Nat), 0 < n →
      ((List.range' s n).foldl (epochStep save trainOf valOf start_epoch) p).1.current_epoch
        = s + n - 1
  | 0, _, _, h => absurd h (by omega)
  | n + 1, s, p, _ => by
    rw [show List.range' s (n + 1) = s :: List.range' (s + 1) n from rfl, List.foldl_cons]
    cases Nat.eq_zero_or_pos n with
    | inl hz =>
      subst hz
      rw [show List.range' (s + 1) 0 = [] from rfl, List.foldl_nil]
      rw [show (epochStep save trainOf valOf start_epoch p s).1
          = recordStats save (trainOf s) (valOf s) { p.1 with current_epoch := s } from rfl]
      rw [(recordStats_fields save (trainOf s) (valOf s) _).2.2.1]
      simp
    | inr hpos =>
      rw [runFold_epoch save trainOf valOf start_epoch n (s + 1) _ hpos]
      omega

theorem runFold_disk (save : Bool) (trainOf valOf : Nat → ℚ) (start_epoch : Nat) :
    ∀ (n s : Nat) (p : ExpState × List Nat), 0 < n → save = true →
      (((List.range' s n).foldl (epochStep save trainOf valOf start_epoch) p).1.disk_train
        = some ((List.range' s n).foldl (epochStep save trainOf valOf start_epoch) p).1.training_losses) ∧
      (((List.range' s n).foldl (epochStep save trainOf valOf start_epoch) p).1.disk_val
        = some ((List.range' s n).foldl (epochStep save trainOf valOf start_epoch) p).1.val_losses)
  | 0, _, _, h, _ => absurd h (by omega)
  | n + 1, s, p, _, hsave => by
    rw [show List.range' s (n + 1) = s :: List.range' (s + 1) n from rfl, List.foldl_cons]
    cases Nat.eq_zero_or_pos n with
    | inl hz =>
      subst hz
      rw [show List.range' (s + 1) 0 = [] from rfl, List.foldl_nil]
      rw [show (epochStep save trainOf valOf start_epoch p s).1
          = recordStats save (trainOf s) (valOf s) { p.1 with current_epoch := s } from rfl]
      have hr := recordStats_fields save (trainOf s) (valOf s) { p.1 with current_epoch := s }
      refine ⟨?_, ?_⟩
      · rw [(hr.2.2.2 hsave).1, hr.1]
      · rw [(hr.2.2.2 hsave).2, hr.2.1]
    | inr hpos =>
      exact runFold_disk save trainOf valOf start_epoch n (s + 1) _ hpos hsave

/-! ### Stripping a completed caption -/

theorem liveCap_no_end {max_len T t : Nat} {raw : List String}
    (hl : liveCap max_len T raw) : raw.getD t "" ≠ "<end>" := by
  by_cases ht : t < raw.length
  · exact hl.2.2 t ht
  · rw [listGetD_eq_default raw t "" (by omega)]
    decide

theorem doneCap_strip {max_len T : Nat} {raw : List String} {t : Nat}
    (hd : doneCap max_len T raw) (h : raw.getD t "" = "<end>") :
    (∀ u, t < u → u < raw.length → raw.getD u "" = "<pad>") ∧
    raw.filter notSpecial = (raw.take (t + 1)).filter notSpecial := by
  obtain ⟨hl, s, hs1, hs2, hs3, hs4, hs5⟩ := hd
  have hts : t = s := by
    rcases lt_trichotomy t s with hlt | heq | hgt
    · exact absurd h (hs4 t hlt)
    · exact heq
    · by_cases htl : t < raw.length
      · rw [hs5 t hgt htl] at h
        exact absurd h (by decide)
      · rw [listGetD_eq_default raw t "" (by omega)] at h
        exact absurd h (by decide)
  subst hts
  refine ⟨fun u hu1 hu2 => hs5 u hu1 hu2, ?_⟩
  have hdrop : (raw.drop (t + 1)).filter notSpecial = [] := by
    apply filter_eq_nil_of_false
    intro x hx
    obtain ⟨j, hj, hgd⟩ := mem_getD_of_mem "" hx
    rw [listGetD_drop "" raw (t + 1) j] at hgd
    have hjlen := List.length_drop (t + 1) raw
    have hxj : raw.getD (t + 1 + j) "" = "<pad>" := by
      apply hs5
      · omega
      · omega
    rw [hxj] at hgd
    rw [← hgd]
    decide
  conv_lhs => rw [← List.take_append_drop (t + 1) raw]
  rw [List.filter_append, hdrop, List.append_nil]

/-! ## The claims -/

/-- C1 (amended): for every batch of `B` images and every `GenerationConfig` with
`max_length = M`, `generate` returns exactly `B` token lists, each containing no
start, end, or pad tokens, and each of length at most `M + 1`.  (The while-loop runs
up to `M + 1` recording iterations and the first one overwrites the `"<start>"`
marker, so a run that never selects a flag word yields `M + 1` surviving tokens;
the claimed bound `M` fails, see the counterexample.) -/
theorem generate_stripped_bound {ι σ ε : Type} (m : LSTMModel ι σ ε) (images : List ι)
    (cfg : GenConfig) :
    (generate m images cfg).length = images.length ∧
    ∀ cap ∈ generate m images cfg,
      (∀ w ∈ cap, notSpecial w = true) ∧ cap.length ≤ cfg.max_length + 1 := by
  obtain ⟨hc, hk, _, hf⟩ := finalState_stInv m images cfg
  constructor
  · unfold generate
    simpa using hc
  · intro cap hcap
    unfold generate at hcap
    rcases List.mem_map.mp hcap with ⟨raw, hraw, hfe⟩
    subst hfe
    refine ⟨fun w hw => List.of_mem_filter hw, ?_⟩
    obtain ⟨i, hi, hgd⟩ := mem_getD_of_mem ([] : List String) hraw
    have hcapinv := forall₂_getD ([] : List String) false hf i hi
    rw [hgd] at hcapinv
    have hlen : raw.length = cfg.max_length + 1 := by
      cases hkb : (finalState m images cfg).keep_generating.getD i false with
      | true =>
        rw [hkb] at hcapinv
        exact (hcapinv.1 rfl).1
      | false =>
        rw [hkb] at hcapinv
        exact (hcapinv.2 rfl).1
    calc (raw.filter notSpecial).length ≤ raw.length := List.length_filter_le _ raw
      _ = cfg.max_length + 1 := hlen

/-- C1 witness: a concrete deterministic run on one image returns one caption with
no flag words and length at most `max_length + 1`. -/
theorem generate_stripped_bound_w :
    (generate cmA [()] cfgLen1).length = 1 ∧
    (∀ w ∈ (["a", "a"] : List String), notSpecial w = true) ∧
    (["a", "a"] : List String).length ≤ cfgLen1.max_length + 1 := by
  have h := generate_stripped_bound cmA [()] cfgLen1
  have hm : (["a", "a"] : List String) ∈ generate cmA [()] cfgLen1 := by decide
  exact ⟨h.1, (h.2 _ hm).1, (h.2 _ hm).2⟩

/-- C1 counterexample: with `max_length = 1` the deterministic one-word model yields
a stripped caption of length 2 > 1, refuting the claimed bound `M`. -/
theorem generate_stripped_bound_cex :
    ∃ cap ∈ generate cmA [()] cfgLen1, ¬ cap.length ≤ cfgLen1.max_length := by
  refine ⟨["a", "a"], ?_, by decide⟩
  have h : generate cmA [()] cfgLen1 = [["a", "a"]] := by decide
  rw [h]
  simp

/-- C2: the step-0 decoder input of `generate` is NOT the image embedding — the
source applies the word-embedding lookup to the float image-feature tensor
(`self.word_embedder(features)`, lines 120-122), and `F.embedding` on a float
tensor is an error, so the computation fails for every weight matrix and every
batch of image features (whereas `forward`, line 71, feeds the features to the
decoder directly). -/
theorem generate_step0_embedding_error (weight features : List (List ℚ)) :
    generateStep0Embedded weight features = none := rfl

/-- C3 (amended): for every target token sequence of length `L ≥ 1`, teacher-forced
scoring builds its decoder input as the image embedding followed by the embeddings
of target tokens `0..L-2`, its state scan never consults the output head (no
feedback of its own predictions), it scores exactly `L` positions, and the permuted
output puts the vocabulary on the outer dimension, entry `(v, t)` being the logit of
vocabulary item `v` at position `t` — the alignment `nn.CrossEntropyLoss` expects
against the un-shifted target.  (For `L = 0` the scored-position count is 1, not 0,
see the counterexample.) -/
theorem forward_teacher_forcing {ι σ ε : Type} (m : LSTMModel ι σ ε) (img : ι)
    (cap : List Nat) (h : 1 ≤ cap.length) :
    teacherInputs m img cap
      = m.features img :: (cap.take (cap.length - 1)).map m.word_embedder ∧
    (forwardExample m img cap).length = cap.length ∧
    (∀ h2 : σ → List ℚ,
      lstmStates { m with hidden2output := h2 } m.zeroState (teacherInputs m img cap)
        = lstmStates m m.zeroState (teacherInputs m img cap)) ∧
    (∀ v t, v < m.vocab_size → t < (forwardExample m img cap).length →
      ((permuteVL m.vocab_size (forwardExample m img cap)).getD v []).getD t 0
        = ((forwardExample m img cap).getD t []).getD v 0) := by
  refine ⟨?_, ?_, ?_, ?_⟩
  · unfold teacherInputs
    rw [List.dropLast_eq_take]
  · unfold forwardExample
    rw [List.length_map, lstmStates_length]
    unfold teacherInputs
    simp
    omega
  · intro h2
    exact lstmStates_head_irrel m h2 _ _
  · intro v t hv ht
    unfold permuteVL
    rw [listGetD_map _ (List.range m.vocab_size) v [] 0 (by simpa using hv)]
    rw [rangeGetD hv]
    rw [listGetD_map _ (forwardExample m img cap) t 0 [] ht]

/-- C3 witness: the teacher-forcing properties evaluated on a concrete model and
the length-2 target `[3, 4]`. -/
theorem forward_teacher_forcing_w :
    teacherInputs cmA () [3, 4]
      = cmA.features () :: (([3, 4] : List Nat).take 1).map cmA.word_embedder ∧
    (forwardExample cmA () [3, 4]).length = 2 ∧
    lstmStates { cmA with hidden2output := fun _ => [] } cmA.zeroState
        (teacherInputs cmA () [3, 4])
      = lstmStates cmA cmA.zeroState (teacherInputs cmA () [3, 4]) ∧
    ((permuteVL cmA.vocab_size (forwardExample cmA () [3, 4])).getD 0 []).getD 1 0
      = ((forwardExample cmA () [3, 4]).getD 1 []).getD 0 0 := by
  have h := forward_teacher_forcing cmA () [3, 4] (by decide)
  exact ⟨h.1, h.2.1, h.2.2.1 _, h.2.2.2 0 1 (by decide) (by decide)⟩

/-- C3 counterexample: on the empty target the pass still scores one position (the
synthetic image step), so "exactly `L` scored positions" fails at `L = 0`. -/
theorem forward_scored_positions_cex :
    ¬ ((forwardExample cmA () ([] : List Nat)).length = ([] : List Nat).length) := by
  decide

/-- C4: during generation, once an example records the end-of-sequence token at some
position `t` of its raw caption buffer, it is marked completed
(`keep_generating = false`), every later position of its buffer still holds the
untouched `"<pad>"` (no token selected at a later step is recorded for it), and its
returned caption equals the stripped prefix up to and including the completion
step. -/
theorem generate_early_stop {ι σ ε : Type} (m : LSTMModel ι σ ε) (images : List ι)
    (cfg : GenConfig) (i t : Nat)
    (h : ((finalState m images cfg).captions.getD i []).getD t "" = "<end>") :
    (finalState m images cfg).keep_generating.getD i false = false ∧
    (∀ u, t < u → u < ((finalState m images cfg).captions.getD i []).length →
      ((finalState m images cfg).captions.getD i []).getD u "" = "<pad>") ∧
    (generate m images cfg).getD i [] =
      (((finalState m images cfg).captions.getD i []).take (t + 1)).filter notSpecial := by
  obtain ⟨hc, hk, _, hf⟩ := finalState_stInv m images cfg
  by_cases hi : i < (finalState m images cfg).captions.length
  case neg =>
    rw [listGetD_eq_default _ i ([] : List String) (by omega)] at h
    rw [listGetD_eq_default ([] : List String) t "" (by simp)] at h
    exact absurd h (by decide)
  case pos =>
    have hcapinv := forall₂_getD ([] : List String) false hf i hi
    cases hkb : (finalState m images cfg).keep_generating.getD i false with
    | true =>
      rw [hkb] at hcapinv
      exact absurd h (liveCap_no_end (hcapinv.1 rfl))
    | false =>
      rw [hkb] at hcapinv
      have hdone := hcapinv.2 rfl
      have hstrip := doneCap_strip hdone h
      refine ⟨rfl, hstrip.1, ?_⟩
      have hgen : (generate m images cfg).getD i [] =
          ((finalState m images cfg).captions.getD i []).filter notSpecial := by
        unfold generate
        exact listGetD_map (List.filter notSpecial) _ i [] [] hi
      rw [hgen, hstrip.2]

/-- C4 witness: a model that immediately selects `"<end>"` completes its single
example at step 0; the raw buffer holds `"<end>"` at position 0, the flag is
cleared, and the returned caption is empty. -/
theorem generate_early_stop_w :
    ((finalState cmEnd [()] cfgLen1).captions.getD 0 []).getD 0 "" = "<end>" ∧
    (finalState cmEnd [()] cfgLen1).keep_generating.getD 0 false = false ∧
    (generate cmEnd [()] cfgLen1).getD 0 [] = [] := by
  have h := generate_early_stop cmEnd [()] cfgLen1 0 0 (by decide)
  exact ⟨by decide, h.1, h.2.2.trans (by decide)⟩

/-- C5 (amended): when resume is requested and a prior run's training-loss history,
validation-loss history and checkpoint all exist, the loader installs both
histories, sets `current_epoch` to the length of the training-loss history, and
installs model and optimizer state from the checkpoint (the stats directory is
ensured to exist first, non-destructively); when resume is requested but the
checkpoint file is absent, construction fails with an error; when resume is not
requested the loading routine never runs — the orchestrator starts fresh and does
NOT create a persistence location at construction. -/
theorem load_experiment_resume {μ ω : Type} (fs : ExpFS μ ω) (st : ExpCore μ ω)
    (model0 : μ) (optim0 : ω) (tls vls : List ℚ) (ck : μ × ω) :
    (fs.training_file = some tls → fs.val_file = some vls →
      fs.checkpoint_file = some ck →
      loadExperiment true fs st = Except.ok
        ({ st with
            training_losses := tls
            val_losses := some vls
            current_epoch := tls.length
            model := ck.1
            optim := ck.2 },
         { fs with statsDirExists := true })) ∧
    (fs.checkpoint_file = none →
      ∃ e, loadExperiment true fs st = Except.error e) ∧
    experimentInit false model0 optim0 fs = Except.ok (freshCore model0 optim0, fs) := by
  obtain ⟨dirE, tf, vf, cf⟩ := fs
  refine ⟨?_, ?_, ?_⟩
  · intro h1 h2 h3
    replace h1 : tf = some tls := h1
    replace h2 : vf = some vls := h2
    replace h3 : cf = some ck := h3
    subst h1
    subst h2
    subst h3
    rfl
  · intro h3
    replace h3 : cf = none := h3
    subst h3
    cases tf with
    | none => exact ⟨LoadErr.lenOfNone, rfl⟩
    | some tls2 => exact ⟨LoadErr.missingCheckpoint, rfl⟩
  · rfl

/-- C5 witness: a concrete resume from a prior run with a 2-epoch history, a
concrete failing resume with a missing checkpoint, and a concrete fresh start. -/
theorem load_experiment_resume_w :
    loadExperiment true fsLoaded (freshCore (0 : Int) (0 : Int))
      = Except.ok ({ current_epoch := 2
                     training_losses := [1, 2]
                     val_losses := some [3, 4]
                     model := 7
                     optim := 8 }, fsLoaded) ∧
    (∃ e, loadExperiment true fsEmpty (freshCore (0 : Int) (0 : Int))
      = Except.error e) ∧
    experimentInit false (1 : Int) (2 : Int) fsEmpty
      = Except.ok (freshCore 1 2, fsEmpty) := by
  have h1 := load_experiment_resume fsLoaded (freshCore (0 : Int) (0 : Int))
    (1 : Int) (2 : Int) [1, 2] [3, 4] (7, 8)
  have h2 := load_experiment_resume fsEmpty (freshCore (0 : Int) (0 : Int))
    (1 : Int) (2 : Int) [] [] (0, 0)
  exact ⟨(h1.1 rfl rfl rfl).trans rfl, h2.2.1 rfl, h2.2.2⟩

/-- C5 counterexample: constructing without resume on a filesystem that has no
stats directory leaves the filesystem untouched — no "clean persistence location"
is created, refuting the claim's otherwise-branch (the directory-creating else
branch of `__load_experiment` is dead code: the routine only runs when `load` is
set, and its first line has already created the directory, making its condition
true). -/
theorem load_fresh_no_dir_cex :
    experimentInit false (0 : Int) (0 : Int) fsEmpty
      = Except.ok (freshCore 0 0, fsEmpty) ∧
    fsEmpty.statsDirExists = false :=
  ⟨rfl, rfl⟩

/-- C6: with `deterministic = true`, token selection is the arg-max of the
log-softmax over the vocabulary — which coincides with the arg-max of the raw
logits, since log-softmax subtracts a constant per row — with ties broken by the
lowest index, and generation is a pure function of the model and images: its result
does not depend on the sampling oracle, so two calls on the same input produce
identical output sequences. -/
theorem generate_deterministic_argmax {ι σ ε : Type} (m : LSTMModel ι σ ε)
    (images : List ι) (cfg : GenConfig) (h : cfg.deterministic = true) :
    (∀ s₁ s₂ : Nat → Nat → List ℚ → Nat,
      generate { m with sample := s₁ } images cfg
        = generate { m with sample := s₂ } images cfg) ∧
    (∀ (f : List ℚ → ℚ) (v : List ℚ), argmaxIdx (logSoftmax f v) = argmaxIdx v) ∧
    (∀ (v : List ℚ) (j : Nat), j < argmaxIdx v → v.getD j 0 < v.getD (argmaxIdx v) 0) ∧
    (∀ (v : List ℚ) (j : Nat), j < v.length → v.getD j 0 ≤ v.getD (argmaxIdx v) 0) := by
  refine ⟨?_, ?_, ?_, ?_⟩
  · intro s₁ s₂
    rw [generate_sample m s₁ images cfg h, generate_sample m s₂ images cfg h]
  · intro f v
    exact argmaxIdx_logSoftmax f v
  · exact fun v j => lt_getD_argmaxIdx v j
  · exact fun v j => le_getD_argmaxIdx v j

/-- C6 witness: with a deterministic config, two sampling oracles give the same
output on a concrete run; the log-softmax shift keeps the arg-max of a concrete
vector with a tie, and the tie is broken at the lowest index (index 1 of
`[3, 7, 7, 2]`, whose earlier entry is strictly smaller). -/
theorem generate_deterministic_argmax_w :
    generate { cmA with sample := fun _ _ _ => 0 } [()] cfgLen1
      = generate { cmA with sample := fun _ _ _ => 1 } [()] cfgLen1 ∧
    argmaxIdx (logSoftmax (fun _ => 100) [3, 7, 7, 2]) = argmaxIdx [3, 7, 7, 2] ∧
    ([3, 7, 7, 2] : List ℚ).getD 0 0
      < ([3, 7, 7, 2] : List ℚ).getD (argmaxIdx [3, 7, 7, 2]) 0 := by
  have h := generate_deterministic_argmax cmA [()] cfgLen1 rfl
  exact ⟨h.1 _ _, h.2.1 _ _, h.2.2.1 _ 0 (by decide)⟩

/-- C7 (amended): starting from any consistent state (history lengths equal to
`current_epoch`), after `Experiment.run` the loss histories have length equal to
the number of completed epochs — in memory, and identical on disk when saving is
enabled and at least one epoch ran — but `current_epoch` equals the INDEX of the
last epoch run (`epochs - 1` when at least one epoch ran), not the completed count:
it is set to the running epoch's index at the start of each epoch and never moves
past it, so it equals the completed count only while an epoch is in progress (and
right after a resume reload), lagging one behind after each epoch's stats are
recorded. -/
theorem run_histories_consistent (save : Bool) (trainOf valOf : Nat → ℚ)
    (epochs : Nat) (st0 : ExpState)
    (h1 : st0.training_losses.length = st0.current_epoch)
    (h2 : st0.val_losses.length = st0.current_epoch) :
    (runLoop save trainOf valOf epochs st0).1.training_losses.length
      = st0.current_epoch + (epochs - st0.current_epoch) ∧
    (runLoop save trainOf valOf epochs st0).1.val_losses.length
      = st0.current_epoch + (epochs - st0.current_epoch) ∧
    (runLoop save trainOf valOf epochs st0).1.current_epoch
      = (if epochs ≤ st0.current_epoch then st0.current_epoch else epochs - 1) ∧
    (save = true → st0.current_epoch < epochs →
      (runLoop save trainOf valOf epochs st0).1.disk_train
        = some (runLoop save trainOf valOf epochs st0).1.training_losses ∧
      (runLoop save trainOf valOf epochs st0).1.disk_val
        = some (runLoop save trainOf valOf epochs st0).1.val_losses) := by
  unfold runLoop
  refine ⟨?_, ?_, ?_, ?_⟩
  · rw [runFold_train_len]
    show st0.training_losses.length + (epochs - st0.current_epoch)
        = st0.current_epoch + (epochs - st0.current_epoch)
    omega
  · rw [runFold_val_len]
    show st0.val_losses.length + (epochs - st0.current_epoch)
        = st0.current_epoch + (epochs - st0.current_epoch)
    omega
  · by_cases hle : epochs ≤ st0.current_epoch
    · rw [if_pos hle]
      rw [show epochs - st0.current_epoch = 0 from by omega]
      rfl
    · rw [if_neg hle]
      rw [runFold_epoch save trainOf valOf st0.current_epoch
        (epochs - st0.current_epoch) st0.current_epoch (st0, []) (by omega)]
      omega
  · intro hsave hlt
    exact runFold_disk save trainOf valOf st0.current_epoch
      (epochs - st0.current_epoch) st0.current_epoch (st0, []) (by omega) hsave

/-- C7 witness: a fresh 2-epoch saving run ends with histories of length 2 on disk
and in memory, and `current_epoch = 1`. -/
theorem run_histories_consistent_w :
    (runLoop true (fun _ => 0) (fun _ => 0) 2 freshExp).1.training_losses.length = 2 ∧
    (runLoop true (fun _ => 0) (fun _ => 0) 2 freshExp).1.current_epoch = 1 ∧
    (runLoop true (fun _ => 0) (fun _ => 0) 2 freshExp).1.disk_train
      = some (runLoop true (fun _ => 0) (fun _ => 0) 2 freshExp).1.training_losses := by
  have h := run_histories_consistent true (fun _ => 0) (fun _ => 0) 2 freshExp rfl rfl
  exact ⟨h.1.trans (by decide), h.2.2.1.trans (by decide), (h.2.2.2 rfl (by decide)).1⟩

/-- C7 counterexample: after one completed epoch of a fresh run the in-memory
training history has length 1 but `current_epoch` is still 0, refuting
"`current_epoch` equals the number of completed training epochs at all times". -/
theorem run_current_epoch_cex :
    ¬ ((runLoop false (fun _ => 0) (fun _ => 0) 1 freshExp).1.current_epoch
      = (runLoop false (fun _ => 0) (fun _ => 0) 1 freshExp).1.training_losses.length) := by
  decide

/-- C8 (amended): the training epoch of `Experiment.__train` has no batch-size
check and skips nothing: for every loader, every batch — a non-positive-size batch
included — adds its criterion loss to the aggregate and receives an optimizer step,
and the returned loss is the sum of all per-batch losses divided by the loader
length. -/
theorem train_no_skip {β : Type} (lossOf : β → ℚ) (loader : List β) :
    trainEpoch lossOf loader
      = ((loader.map lossOf).sum / (loader.length : ℚ), loader) := by
  have hfold : ∀ (l : List β) (q : ℚ) (bs : List β),
      l.foldl (fun acc b => (acc.1 + lossOf b, acc.2 ++ [b])) (q, bs)
        = (q + (l.map lossOf).sum, bs ++ l) := by
    intro l
    induction l with
    | nil =>
      intro q bs
      simp
    | cons b l ih =>
      intro q bs
      rw [List.foldl_cons]
      show List.foldl _ (q + lossOf b, bs ++ [b]) l = _
      rw [ih]
      rw [List.map_cons, List.sum_cons]
      simp [add_assoc, List.append_assoc]
  show ((loader.foldl (fun acc b => (acc.1 + lossOf b, acc.2 ++ [b]))
        ((0 : ℚ), ([] : List β))).1 / (loader.length : ℚ),
      (loader.foldl (fun acc b => (acc.1 + lossOf b, acc.2 ++ [b]))
        ((0 : ℚ), ([] : List β))).2)
    = ((loader.map lossOf).sum / (loader.length : ℚ), loader)
  rw [hfold]
  simp

/-- C8 counterexample: a loader holding one size-0 batch — the batch is not
skipped: the optimizer steps on it and its loss term (here 5, whatever the
criterion yields on an empty batch) is the aggregate, not zero. -/
theorem train_no_skip_cex :
    zeroBatch.size = 0 ∧
    (trainEpoch (fun _ => (5 : ℚ)) [zeroBatch]).2 = [zeroBatch] ∧
    ¬ (trainEpoch (fun _ => (5 : ℚ)) [zeroBatch]).1 = 0 := by
  refine ⟨rfl, rfl, ?_⟩
  show ¬ ((0 : ℚ) + 5) / ((1 : Nat) : ℚ) = 0
  norm_num

/-- C9 (amended): the periodic test pass of `Experiment.run` runs exactly on the
epochs in the run's range that are a multiple of the FIXED interval 10 — the
interval is a hardcoded literal, not a configurable `K` — and never on the starting
epoch of the run (a resumed run's starting epoch included). -/
theorem run_test_trigger (save : Bool) (trainOf valOf : Nat → ℚ) (epochs : Nat)
    (st0 : ExpState) :
    (runLoop save trainOf valOf epochs st0).2
      = (List.range' st0.current_epoch (epochs - st0.current_epoch)).filter
          (fun e => testTrigger e st0.current_epoch) ∧
    (∀ e s, testTrigger e s = specTestTrigger 10 e s) ∧
    (∀ e s, testTrigger e s = true ↔ (e % 10 = 0 ∧ e ≠ s)) := by
  refine ⟨?_, fun e s => rfl, ?_⟩
  · unfold runLoop
    rw [runFold_tested]
    simp
  · intro e s
    unfold testTrigger
    simp

/-- C9 counterexample: the spec's configurable-interval reading with `K = 5` calls
for a test pass at epoch 5 of a fresh 6-epoch run, but the code performs no test
pass at all in such a run — the interval is fixed at 10. -/
theorem run_test_interval_cex :
    specTestTrigger 5 5 0 = true ∧
    (runLoop false (fun _ => 0) (fun _ => 0) 6 freshExp).2 = [] := by
  decide

/-- C10: for every batch of `B` images and every `GenerationConfig`, the generation
loop is insensitive to any fuel beyond `max_length + 1` — it terminates within at
most `max_length + 1` recurrent steps even when no example ever produces the end
token — and `generate` always returns exactly `B` caption lists, one per input
image, in input order. -/
theorem generate_terminates {ι σ ε : Type} (m : LSTMModel ι σ ε) (images : List ι)
    (cfg : GenConfig) (k : Nat) :
    genLoop m cfg images (cfg.max_length + 1 + k)
        (initState m images.length cfg.max_length) = finalState m images cfg ∧
    (generate m images cfg).length = images.length := by
  constructor
  · exact genLoop_add m cfg images (cfg.max_length + 1) k _ (by simp [initState])
  · obtain ⟨hc, _, _, _⟩ := finalState_stInv m images cfg
    unfold generate
    simpa using hc
